import Mathlib

/-!
Verification of the XMLReader module
(src/csrc/cppapi/Source/XMLParser/XMLReader.cpp).

The module adapts a push-style external XML tokenizer (expat) to a
pull-style element queue.  We embed the reader shallowly:

* `XMLElement` is the queued record (kind, name, attributes); the struct is
  declared in `XMLReader.h`, which is not among the sources, so its field
  set is taken from the spec's data model together with the fields the
  `.cpp` file assigns.
* The external tokenizer is abstracted as a `Tokenizer` value: a `feed`
  function taking the tokenizer state, one byte chunk, and the final-chunk
  flag, and returning the new state, the events delivered (in callback
  order) and an optional fatal diagnostic.  A small executable instance
  (`miniTokenizer`), modelled from the spec's tokenizer contract, serves as
  a concrete stand-in for expat in witnesses.
* The byte source (`SGS::IStream`) is modelled as the list of chunks its
  successive reads return; `IsEOF` for the source is emptiness of that
  list.  This covers both the buffered `Read` path and the zero-copy
  `ReadOptimized` path (the latter is a one-chunk stream).
* C++ exceptions become an explicit `Option xml_error` / `Except` channel;
  the C++ object state that persists across a throw is returned alongside.
-/

/-- Element kinds, from the source's `SGS::kStart`, `SGS::kEnd`, `SGS::kText`. -/
inductive ElementKind
  | kStart
  | kEnd
  | kText
deriving DecidableEq, Repr

/-- Modelled from the spec: `SGS::XMLElement` is declared in `XMLReader.h`,
which is not part of the sources.  The fields are the ones the `.cpp`
assigns — `kind`, `name`, `attributes` — matching the spec's data model
(§3).  `attributes` is a `std::map`; we keep it as an association list with
unique keys (the spec declares attribute order not significant). -/
structure XMLElement where
  kind : ElementKind
  name : String
  attributes : List (String × String)
deriving DecidableEq, Repr

/-- Modelled from the spec: `std::map` subscript-assignment
`attributes[key] = value` — overwrite the binding if the key is present,
otherwise add it. -/
def mapInsert (m : List (String × String)) (k v : String) : List (String × String) :=
  if m.any (fun p => p.1 == k) then
    m.map (fun p => if p.1 == k then (k, v) else p)
  else
    m ++ [(k, v)]

/-- One tokenizer event, as delivered by the external tokenizer's callbacks
(start-tag with its attribute pairs, end-tag, character data). -/
inductive XMLEvent
  | startElement (name : String) (atts : List (String × String))
  | endElement (name : String)
  | characterData (s : String)
deriving DecidableEq, Repr

/-- The attribute loop of `OnStartElement`: walk the delivered name/value
pairs, inserting each into the (initially empty) attribute map. -/
def attrFold (atts : List (String × String)) : List (String × String) :=
  atts.foldl (fun m kv => mapInsert m kv.1 kv.2) []

/-- `SGS::Internal::XMLAdapter::OnStartElement`: build a `kStart` element
with the given name and the delivered attribute pairs. -/
def XMLAdapter.OnStartElement (name : String) (atts : List (String × String)) : XMLElement :=
  { kind := .kStart, name := name, attributes := attrFold atts }

/-- `SGS::Internal::XMLAdapter::OnEndElement`: build a `kEnd` element with
the given name; the attribute map stays empty. -/
def XMLAdapter.OnEndElement (name : String) : XMLElement :=
  { kind := .kEnd, name := name, attributes := [] }

/-- `SGS::Internal::XMLAdapter::OnCharacterData`: build a `kText` element.
Note the source stores the character span in the `name` field
(`pElement->name = std::wstring(s, len)`); there is no separate text field. -/
def XMLAdapter.OnCharacterData (s : String) : XMLElement :=
  { kind := .kText, name := s, attributes := [] }

/-- Dispatch one tokenizer event to the adapter callback it triggers. -/
def handleEvent : XMLEvent → XMLElement
  | .startElement n atts => XMLAdapter.OnStartElement n atts
  | .endElement n => XMLAdapter.OnEndElement n
  | .characterData s => XMLAdapter.OnCharacterData s

/-- The callbacks fire in event order during a feed call; each pushes one
element at the back of the queue (`mElements.push_back`). -/
def pushEvents (q : List XMLElement) (evts : List XMLEvent) : List XMLElement :=
  evts.foldl (fun acc ev => acc ++ [handleEvent ev]) q

/-- Modelled from the spec: the external streaming tokenizer contract (§6)
— it accepts raw byte chunks plus an end-of-input flag, invokes the
callbacks synchronously during the feed call (the returned event list, in
delivery order), and reports success or a fatal failure with a diagnostic
string.  `τ` is the tokenizer's internal state. -/
structure Tokenizer (τ : Type) where
  feed : τ → String → Bool → τ × List XMLEvent × Option String

/-- The source's `xml_error` exception class: its constructor parameter is
unused (`xml_error(const wchar_t* /*what*/) {}`), so the object stores
nothing at all. -/
structure xml_error where
deriving DecidableEq, Repr

/-- Constructing an `xml_error` from a diagnostic message, as done at the
`throw xml_error(XML_ErrorString(...))` site: the message is discarded. -/
def xml_error.ofMsg (what : String) : xml_error :=
  let _ := what
  {}

/-- The `SGS::XMLReader` object state: the borrowed byte source (`none`
models a null `mpStream`), the owned tokenizer instance (`none` models a
failed `XML_ParserCreate`), the pending element queue, and the most
recently delivered element. -/
structure XMLReaderState (τ : Type) where
  mpStream : Option (List String)
  mParser : Option τ
  mElements : List XMLElement
  mpCurrentElement : Option XMLElement
deriving DecidableEq, Repr

/-- `SGS::XMLReader::Parse`: while the queue is empty and the stream is not
at end-of-stream, read one chunk, feed it with the after-read EOF status as
the final flag, enqueue the elements the callbacks produced, and throw
`xml_error` if the tokenizer reported a fatal error.  The result is
(parser state, remaining chunks, queue, raised error). -/
def XMLReader.Parse {τ : Type} (T : Tokenizer τ) :
    List String → τ → List XMLElement → τ × List String × List XMLElement × Option xml_error
  | chunks, p, e :: es => (p, chunks, e :: es, none)
  | [], p, [] => (p, [], [], none)
  | c :: rest, p, [] =>
    match T.feed p c rest.isEmpty with
    | (p', evs, some m) => (p', rest, pushEvents [] evs, some (xml_error.ofMsg m))
    | (p', evs, none) =>
      match pushEvents [] evs with
      | [] => XMLReader.Parse T rest p' []
      | q' => (p', rest, q', none)

/-- `SGS::XMLReader::IsEOF`: true immediately when the tokenizer failed to
initialise or no byte source was supplied; otherwise run the parse step and
report queue emptiness.  The first component is the reader state after the
call (it persists even when the parse step throws). -/
def XMLReader.IsEOF {τ : Type} (T : Tokenizer τ) (r : XMLReaderState τ) :
    XMLReaderState τ × Except xml_error Bool :=
  match r.mParser, r.mpStream with
  | none, _ => (r, .ok true)
  | some _, none => (r, .ok true)
  | some p, some chunks =>
    match XMLReader.Parse T chunks p r.mElements with
    | (p', chunks', q', some e) =>
      ({ r with mParser := some p', mpStream := some chunks', mElements := q' }, .error e)
    | (p', chunks', q', none) =>
      ({ r with mParser := some p', mpStream := some chunks', mElements := q' }, .ok q'.isEmpty)

/-- The spec's `hasMore()` is `IsEOF` negated. -/
def hasMore {τ : Type} (T : Tokenizer τ) (r : XMLReaderState τ) :
    XMLReaderState τ × Except xml_error Bool :=
  let res := XMLReader.IsEOF T r
  (res.1, res.2.map (fun b => !b))

/-- `SGS::XMLReader::ReadElement`: run the parse step, release the
previously returned element, pop the queue head into `mpCurrentElement` and
return it.  `none` models the undefined behaviour the commented-out asserts
guarded against: a null parser or stream (`Parse` would dereference them),
or `mElements.front()` on an empty queue. -/
def XMLReader.ReadElement {τ : Type} (T : Tokenizer τ) (r : XMLReaderState τ) :
    Option (XMLReaderState τ × Except xml_error XMLElement) :=
  match r.mParser, r.mpStream with
  | none, _ => none
  | some _, none => none
  | some p, some chunks =>
    match XMLReader.Parse T chunks p r.mElements with
    | (p', chunks', q', some e) =>
      some ({ r with mParser := some p', mpStream := some chunks', mElements := q' }, .error e)
    | (_, _, [], none) => none
    | (p', chunks', e :: es, none) =>
      some ({ r with mParser := some p', mpStream := some chunks', mElements := es, mpCurrentElement := some e }, .ok e)

/-- A freshly constructed reader over a live tokenizer and byte source. -/
def mkReader {τ : Type} (p : τ) (chunks : List String) : XMLReaderState τ :=
  { mpStream := some chunks, mParser := some p, mElements := [], mpCurrentElement := none }

/-- The canonical pull loop of a client: while `IsEOF` is false, call
`ReadElement`; collect the delivered elements, the error that escaped (if
any), and the final reader state.  `fuel` bounds the number of pulls. -/
def drainAll {τ : Type} (T : Tokenizer τ) :
    Nat → XMLReaderState τ → List XMLElement × Option xml_error × XMLReaderState τ
  | 0, r => ([], none, r)
  | fuel + 1, r =>
    match XMLReader.IsEOF T r with
    | (r', .error e) => ([], some e, r')
    | (r', .ok true) => ([], none, r')
    | (r', .ok false) =>
      match XMLReader.ReadElement T r' with
      | some (r'', .ok e) =>
        match drainAll T fuel r'' with
        | (elems, err, rf) => (e :: elems, err, rf)
      | some (r'', .error er) => ([], some er, r'')
      | none => ([], none, r')

/-- Feeding a whole chunk list straight into the tokenizer (final flag on
the last chunk), collecting all events in delivery order — the reference
point the pull loop is compared against. -/
def feedAll {τ : Type} (T : Tokenizer τ) : List String → τ → τ × List XMLEvent × Option String
  | [], p => (p, [], none)
  | c :: rest, p =>
    match T.feed p c rest.isEmpty with
    | (p', evs, some m) => (p', evs, some m)
    | (p', evs, none) =>
      match feedAll T rest p' with
      | (pf, evs2, err) => (pf, evs ++ evs2, err)

/-- Start-tag and end-tag events (everything but character data). -/
def isTagEvent : XMLEvent → Bool
  | .characterData _ => false
  | _ => true

/-- Start-tag and end-tag elements (everything but `kText`). -/
def isTagElement (e : XMLElement) : Bool :=
  match e.kind with
  | .kText => false
  | _ => true

/-- A tokenizer state that is a permanent error sink: every further feed
delivers no events, keeps the state, and reports an error again. -/
def ErroredAt {τ : Type} (T : Tokenizer τ) (p : τ) : Prop :=
  ∀ c d, ∃ m, T.feed p c d = (p, [], some m)

/-- Modelled from the spec: once the external tokenizer reports a fatal
error it is not reset and cannot resume (§7); a failed feed leaves the
tokenizer in a permanent error sink.  This is expat's documented behaviour
for `XML_Parse` after a status error. -/
def ErrorSink {τ : Type} (T : Tokenizer τ) : Prop :=
  ∀ p c d p' evs m, T.feed p c d = (p', evs, some m) → ErroredAt T p'

/-- The reader's public operations, for stating temporal properties. -/
inductive ReaderOp
  | isEOFOp
  | readElemOp

/-- State transition of one public operation (exceptions propagate to the
caller; the object state persists). -/
def applyOp {τ : Type} (T : Tokenizer τ) (r : XMLReaderState τ) : ReaderOp → XMLReaderState τ
  | .isEOFOp => (XMLReader.IsEOF T r).1
  | .readElemOp =>
    match XMLReader.ReadElement T r with
    | some (r', _) => r'
    | none => r

/-- State after a sequence of public operations. -/
def applyOps {τ : Type} (T : Tokenizer τ) (r : XMLReaderState τ) (ops : List ReaderOp) :
    XMLReaderState τ :=
  ops.foldl (applyOp T) r

instance {ε α : Type} [DecidableEq ε] [DecidableEq α] : DecidableEq (Except ε α) :=
  fun a b =>
    match a, b with
    | .ok x, .ok y =>
      if h : x = y then isTrue (by rw [h]) else isFalse (fun hc => by cases hc; exact h rfl)
    | .error x, .error y =>
      if h : x = y then isTrue (by rw [h]) else isFalse (fun hc => by cases hc; exact h rfl)
    | .ok _, .error _ => isFalse (fun hc => by cases hc)
    | .error _, .ok _ => isFalse (fun hc => by cases hc)

/-- Modelled from the spec: internal state of the concrete stand-in
tokenizer — either running (with the unscanned byte fragment carried over
from earlier chunks, and the stack of currently open tag names used for
well-formedness checking), or a permanent error state. -/
inductive TkState
  | run (pending : List Char) (stack : List String)
  | err (msg : String)
deriving DecidableEq, Repr

/-- Outcome of one scan pass: either more input is needed (carrying the
unscanned fragment and the open-tag stack) or a fatal error. -/
inductive ScanOut
  | more (pending : List Char) (stack : List String)
  | fail (msg : String)
deriving DecidableEq, Repr

/-- Split a character list at the first closing angle bracket, returning
the part before it and the part after it. -/
def splitOnGt : List Char → Option (List Char × List Char)
  | [] => none
  | c :: rest =>
    if c == '>' then some ([], rest)
    else
      match splitOnGt rest with
      | none => none
      | some (a, b) => some (c :: a, b)

/-- Modelled from the spec: parse the `name="value"` attribute list inside
a start tag. -/
def parseAttrs : Nat → List Char → Option (List (String × String))
  | 0, _ => none
  | fuel + 1, cs =>
    match cs.dropWhile (fun c => c == ' ') with
    | [] => some []
    | cs' =>
      match cs'.span (fun c => c != '=' && c != ' ') with
      | (nm, '=' :: '"' :: rest2) =>
        match rest2.span (fun c => c != '"') with
        | (v, '"' :: rest4) =>
          match parseAttrs fuel rest4 with
          | some as => some ((String.mk nm, String.mk v) :: as)
          | none => none
        | _ => none
      | _ => none

/-- Modelled from the spec: the scanning loop of the stand-in tokenizer.
It consumes the buffered characters, delivering events in order: a
complete `<name attrs>` yields a start-tag event (plus an end-tag event
when self-closing), a complete `</name>` yields an end-tag event after
checking it matches the innermost open tag, and a run of plain characters
yields a character-data event immediately (so text may fragment at chunk
boundaries).  An incomplete tag is kept as pending input unless the chunk
was final. -/
def scan : Nat → List Char → List String → Bool → List XMLEvent × ScanOut
  | 0, _, _, _ => ([], .fail "out of fuel")
  | fuel + 1, cs, stack, final =>
    match cs with
    | [] =>
      if final && !stack.isEmpty then ([], .fail "no element found")
      else ([], .more [] stack)
    | c :: rest =>
      if c == '<' then
        match splitOnGt rest with
        | none =>
          if final then ([], .fail "unclosed token")
          else ([], .more cs stack)
        | some (inside, after) =>
          match inside with
          | '/' :: nm =>
            let name := String.mk nm
            match stack with
            | top :: stk =>
              if top == name then
                match scan fuel after stk final with
                | (evs, out) => (XMLEvent.endElement name :: evs, out)
              else ([], .fail "mismatched tag")
            | [] => ([], .fail "mismatched tag")
          | _ =>
            let selfClose := inside.getLast? == some '/'
            let body := if selfClose then inside.dropLast else inside
            match body.span (fun ch => ch != ' ' && ch != '/') with
            | (nm, attrPart) =>
              let name := String.mk nm
              match parseAttrs (attrPart.length + 1) attrPart with
              | none => ([], .fail "not well-formed")
              | some atts =>
                if selfClose then
                  match scan fuel after stack final with
                  | (evs, out) =>
                    (XMLEvent.startElement name atts :: XMLEvent.endElement name :: evs, out)
                else
                  match scan fuel after (name :: stack) final with
                  | (evs, out) => (XMLEvent.startElement name atts :: evs, out)
      else
        match cs.span (fun ch => ch != '<') with
        | (txt, rest') =>
          match scan fuel rest' stack final with
          | (evs, out) => (XMLEvent.characterData (String.mk txt) :: evs, out)

/-- Modelled from the spec: one feed call of the stand-in tokenizer.  An
errored instance stays errored, delivers nothing, and reports the error
again; a running instance scans its carried-over fragment plus the new
chunk. -/
def tkFeed (st : TkState) (s : String) (final : Bool) : TkState × List XMLEvent × Option String :=
  match st with
  | .err m => (.err m, [], some m)
  | .run pend stack =>
    match scan ((pend ++ s.data).length + 1) (pend ++ s.data) stack final with
    | (evs, .more pend' stack') => (.run pend' stack', evs, none)
    | (evs, .fail m) => (.err m, evs, some m)

/-- Modelled from the spec: the concrete stand-in for the external
tokenizer, used to exercise the reader on concrete byte streams. -/
def miniTokenizer : Tokenizer TkState :=
  { feed := tkFeed }

/-- A freshly created tokenizer instance (`XML_ParserCreate` succeeded). -/
def initTk : TkState :=
  .run [] []

/-- The adapter appends exactly one element per event, in delivery order. -/
theorem pushEvents_eq_append (evts : List XMLEvent) (q : List XMLElement) :
    pushEvents q evts = q ++ evts.map handleEvent := by
  induction evts generalizing q with
  | nil => simp [pushEvents]
  | cons e es ih =>
    simp only [pushEvents, List.foldl_cons, List.map_cons]
    have h := ih (q ++ [handleEvent e])
    simp only [pushEvents] at h
    rw [h]
    simp

/-- With pairwise distinct keys, the attribute-insertion loop reproduces
exactly the delivered pairs. -/
theorem attrFold_append (atts : List (String × String)) :
    ∀ m : List (String × String), ((m ++ atts).map Prod.fst).Nodup →
      atts.foldl (fun acc kv => mapInsert acc kv.1 kv.2) m = m ++ atts := by
  induction atts with
  | nil => intro m _; simp
  | cons kv rest ih =>
    intro m hd
    have hk : kv.1 ∉ m.map Prod.fst := by
      rw [List.map_append] at hd
      have hdisj := (List.nodup_append.mp hd).2.2
      intro hmem
      exact hdisj hmem (by simp)
    have hany : m.any (fun p => p.1 == kv.1) = false := by
      simp only [List.any_eq_false, beq_iff_eq]
      intro pr hpr hpk
      exact hk (hpk ▸ List.mem_map_of_mem Prod.fst hpr)
    have hins : mapInsert m kv.1 kv.2 = m ++ [kv] := by
      simp [mapInsert, hany]
    rw [List.foldl_cons, hins, ih (m ++ [kv]) (by simpa using hd)]
    simp

/-- Key distinctness instance for the top-level attribute fold. -/
theorem attrFold_eq_self (atts : List (String × String))
    (hd : (atts.map Prod.fst).Nodup) : attrFold atts = atts := by
  simpa [attrFold] using attrFold_append atts [] (by simpa using hd)

/-- A parse step with a non-empty queue is a no-op (the while-loop guard
fails immediately). -/
theorem Parse_cons {τ : Type} (T : Tokenizer τ) (chunks : List String) (p : τ)
    (e : XMLElement) (es : List XMLElement) :
    XMLReader.Parse T chunks p (e :: es) = (p, chunks, e :: es, none) := by
  cases chunks <;> rfl

/-- The unfolding equation of one iteration of the parse loop on an empty
queue and a pending chunk. -/
theorem Parse_step {τ : Type} (T : Tokenizer τ) (c : String) (rest : List String) (p : τ) :
    XMLReader.Parse T (c :: rest) p [] =
      match T.feed p c rest.isEmpty with
      | (p', evs, some m) => (p', rest, pushEvents [] evs, some (xml_error.ofMsg m))
      | (p', evs, none) =>
        match pushEvents [] evs with
        | [] => XMLReader.Parse T rest p' []
        | q' => (p', rest, q', none) := rfl

/-- A failing feed ends the parse step: the elements delivered before the
error stay queued, and `xml_error` is thrown. -/
theorem Parse_step_err {τ : Type} (T : Tokenizer τ) {c : String} {rest : List String}
    {p p1 : τ} {evs : List XMLEvent} {m : String}
    (hfe : T.feed p c rest.isEmpty = (p1, evs, some m)) :
    XMLReader.Parse T (c :: rest) p [] =
      (p1, rest, pushEvents [] evs, some (xml_error.ofMsg m)) := by
  rw [Parse_step, hfe]

/-- A successful feed that delivered no events: the loop continues with the
next chunk. -/
theorem Parse_step_cont {τ : Type} (T : Tokenizer τ) {c : String} {rest : List String}
    {p p1 : τ} {evs : List XMLEvent}
    (hfe : T.feed p c rest.isEmpty = (p1, evs, none)) (hq : pushEvents [] evs = []) :
    XMLReader.Parse T (c :: rest) p [] = XMLReader.Parse T rest p1 [] := by
  rw [Parse_step, hfe]
  dsimp only
  rw [hq]

/-- A successful feed that delivered events: the loop stops with them
queued. -/
theorem Parse_step_stop {τ : Type} (T : Tokenizer τ) {c : String} {rest : List String}
    {p p1 : τ} {evs : List XMLEvent} {x : XMLElement} {xs : List XMLElement}
    (hfe : T.feed p c rest.isEmpty = (p1, evs, none)) (hq : pushEvents [] evs = x :: xs) :
    XMLReader.Parse T (c :: rest) p [] = (p1, rest, x :: xs, none) := by
  rw [Parse_step, hfe]
  dsimp only
  rw [hq]

/-- After a successful parse step, an empty queue means the byte source was
fully consumed. -/
theorem Parse_success_empty {τ : Type} (T : Tokenizer τ) :
    ∀ (chunks : List String) (p p' : τ) (q : List XMLElement) (chunks' : List String),
      XMLReader.Parse T chunks p q = (p', chunks', [], none) → chunks' = [] := by
  intro chunks
  induction chunks with
  | nil =>
    intro p p' q chunks' h
    cases q with
    | nil => exact ((congrArg (fun t => t.2.1) h).symm.trans rfl)
    | cons e es =>
      rw [Parse_cons] at h
      exact absurd (congrArg (fun t => t.2.2.1) h) (List.cons_ne_nil e es)
  | cons c rest ih =>
    intro p p' q chunks' h
    cases q with
    | cons e es =>
      rw [Parse_cons] at h
      exact absurd (congrArg (fun t => t.2.2.1) h) (List.cons_ne_nil e es)
    | nil =>
      rcases hfe : T.feed p c rest.isEmpty with ⟨p1, evs, err⟩
      cases err with
      | some m =>
        rw [Parse_step_err T hfe] at h
        cases congrArg (fun t => t.2.2.2) h
      | none =>
        cases hq : pushEvents [] evs with
        | nil =>
          rw [Parse_step_cont T hfe hq] at h
          exact ih p1 p' [] chunks' h
        | cons x xs =>
          rw [Parse_step_stop T hfe hq] at h
          exact absurd (congrArg (fun t => t.2.2.1) h) (List.cons_ne_nil x xs)

/-- `IsEOF` on a live reader, when the parse step succeeds: the state is
updated and queue emptiness is returned. -/
theorem IsEOF_ok {τ : Type} (T : Tokenizer τ) {chunks chunks' : List String} {p p' : τ}
    {q q' : List XMLElement} (cur : Option XMLElement)
    (h : XMLReader.Parse T chunks p q = (p', chunks', q', none)) :
    XMLReader.IsEOF T ⟨some chunks, some p, q, cur⟩ =
      (⟨some chunks', some p', q', cur⟩, .ok q'.isEmpty) := by
  simp only [XMLReader.IsEOF]
  rw [h]

/-- `IsEOF` on a live reader, when the parse step throws: the exception
escapes and the updated object state persists. -/
theorem IsEOF_err {τ : Type} (T : Tokenizer τ) {chunks chunks' : List String} {p p' : τ}
    {q q' : List XMLElement} {er : xml_error} (cur : Option XMLElement)
    (h : XMLReader.Parse T chunks p q = (p', chunks', q', some er)) :
    XMLReader.IsEOF T ⟨some chunks, some p, q, cur⟩ =
      (⟨some chunks', some p', q', cur⟩, .error er) := by
  simp only [XMLReader.IsEOF]
  rw [h]

/-- `ReadElement` on a live reader whose parse step yields a non-empty
queue: the head is popped into `mpCurrentElement` and returned. -/
theorem ReadElement_ok {τ : Type} (T : Tokenizer τ) {chunks chunks' : List String} {p p' : τ}
    {q es : List XMLElement} {e : XMLElement} (cur : Option XMLElement)
    (h : XMLReader.Parse T chunks p q = (p', chunks', e :: es, none)) :
    XMLReader.ReadElement T ⟨some chunks, some p, q, cur⟩ =
      some (⟨some chunks', some p', es, some e⟩, .ok e) := by
  simp only [XMLReader.ReadElement]
  rw [h]

/-- `ReadElement` on a live reader whose parse step throws. -/
theorem ReadElement_err {τ : Type} (T : Tokenizer τ) {chunks chunks' : List String} {p p' : τ}
    {q q' : List XMLElement} {er : xml_error} (cur : Option XMLElement)
    (h : XMLReader.Parse T chunks p q = (p', chunks', q', some er)) :
    XMLReader.ReadElement T ⟨some chunks, some p, q, cur⟩ =
      some (⟨some chunks', some p', q', cur⟩, .error er) := by
  cases q' with
  | nil => simp only [XMLReader.ReadElement]; rw [h]
  | cons x xs => simp only [XMLReader.ReadElement]; rw [h]

/-- Unfolding equation of `feedAll` on a pending chunk. -/
theorem feedAll_step {τ : Type} (T : Tokenizer τ) (c : String) (rest : List String) (p : τ) :
    feedAll T (c :: rest) p =
      match T.feed p c rest.isEmpty with
      | (p', evs, some m) => (p', evs, some m)
      | (p', evs, none) =>
        match feedAll T rest p' with
        | (pf, evs2, err) => (pf, evs ++ evs2, err) := rfl

/-- Relation between one parse step and feeding everything: the parse step
feeds a prefix of the chunk list, queues the map of the events that prefix
delivered, and leaves a state from which feeding the remaining chunks
delivers exactly the remaining events. -/
theorem Parse_feedAll {τ : Type} (T : Tokenizer τ) :
    ∀ (chunks : List String) (p pf : τ) (evs : List XMLEvent),
      feedAll T chunks p = (pf, evs, none) →
      ∃ (p₁ : τ) (chunks₁ : List String) (evs₁ evs₂ : List XMLEvent),
        XMLReader.Parse T chunks p [] = (p₁, chunks₁, evs₁.map handleEvent, none) ∧
        evs = evs₁ ++ evs₂ ∧
        feedAll T chunks₁ p₁ = (pf, evs₂, none) ∧
        (evs₁ = [] → chunks₁ = [] ∧ evs = []) := by
  intro chunks
  induction chunks with
  | nil =>
    intro p pf evs h
    simp only [feedAll, Prod.mk.injEq] at h
    obtain ⟨h1, h2, -⟩ := h
    refine ⟨p, [], [], [], ?_, ?_, ?_, fun _ => ⟨rfl, h2.symm⟩⟩
    · rfl
    · simp [← h2]
    · simp only [feedAll, h1]
  | cons c rest ih =>
    intro p pf evs h
    rcases hfe : T.feed p c rest.isEmpty with ⟨p1, evs0, err⟩
    rw [feedAll_step, hfe] at h
    cases err with
    | some m =>
      dsimp only at h
      simp only [Prod.mk.injEq] at h
      exact absurd h.2.2 (by simp)
    | none =>
      dsimp only at h
      rcases hfa : feedAll T rest p1 with ⟨pf0, evs2, err2⟩
      rw [hfa] at h
      dsimp only at h
      simp only [Prod.mk.injEq] at h
      obtain ⟨hpf, hevs, herr⟩ := h
      cases err2 with
      | some m2 => exact absurd herr (by simp)
      | none =>
        have hfa' : feedAll T rest p1 = (pf, evs2, none) := by rw [hfa, hpf]
        cases hq : pushEvents [] evs0 with
        | nil =>
          have hev0 : evs0 = [] := by
            rw [pushEvents_eq_append, List.nil_append] at hq
            exact List.map_eq_nil_iff.mp hq
          obtain ⟨p₁, chunks₁, evs₁, evs₂, hP, hsplit, hfa2, hnil⟩ :=
            ih p1 pf evs2 hfa'
          refine ⟨p₁, chunks₁, evs₁, evs₂, ?_, ?_, hfa2, ?_⟩
          · rw [Parse_step_cont T hfe hq]
            exact hP
          · rw [← hevs, hev0, List.nil_append]
            exact hsplit
          · intro he
            obtain ⟨hc, hev⟩ := hnil he
            exact ⟨hc, by rw [← hevs, hev0, hev]; rfl⟩
        | cons x xs =>
          refine ⟨p1, rest, evs0, evs2, ?_, hevs.symm, hfa', ?_⟩
          · rw [Parse_step_stop T hfe hq, ← hq, pushEvents_eq_append, List.nil_append]
          · intro he
            rw [he] at hq
            cases hq

/-- Unfolding equation of one iteration of the pull loop. -/
theorem drainAll_step {τ : Type} (T : Tokenizer τ) (fuel : Nat) (r : XMLReaderState τ) :
    drainAll T (fuel + 1) r =
      match XMLReader.IsEOF T r with
      | (r', .error e) => ([], some e, r')
      | (r', .ok true) => ([], none, r')
      | (r', .ok false) =>
        match XMLReader.ReadElement T r' with
        | some (r'', .ok e) =>
          match drainAll T fuel r'' with
          | (elems, err, rf) => (e :: elems, err, rf)
        | some (r'', .error er) => ([], some er, r'')
        | none => ([], none, r') := rfl

/-- The pull loop delivers exactly the events the tokenizer produces on the
whole stream, mapped through the adapter, in order, after first draining
any elements already queued — provided enough fuel and a clean feed. -/
theorem drainAll_feedAll {τ : Type} (T : Tokenizer τ) :
    ∀ (fuel : Nat) (chunks : List String) (p pf : τ) (q : List XMLElement)
      (cur : Option XMLElement) (evs : List XMLEvent),
      feedAll T chunks p = (pf, evs, none) →
      q.length + evs.length < fuel →
      (drainAll T fuel ⟨some chunks, some p, q, cur⟩).1 = q ++ evs.map handleEvent ∧
      (drainAll T fuel ⟨some chunks, some p, q, cur⟩).2.1 = none := by
  intro fuel
  induction fuel with
  | zero =>
    intro chunks p pf q cur evs _ hlt
    exact absurd hlt (Nat.not_lt_zero _)
  | succ fuel ihf =>
    intro chunks p pf q cur evs h hlt
    cases q with
    | cons e es =>
      have hP := Parse_cons T chunks p e es
      have hEOF := IsEOF_ok T cur hP
      have hRE := ReadElement_ok T cur hP
      rw [drainAll_step, hEOF]
      rw [show (e :: es).isEmpty = false from rfl]
      dsimp only
      rw [hRE]
      dsimp only
      obtain ⟨ih1, ih2⟩ := ihf chunks p pf es (some e) evs h (by simp at hlt ⊢; omega)
      rcases hd : drainAll T fuel ⟨some chunks, some p, es, some e⟩ with ⟨elems, err, rf⟩
      rw [hd] at ih1 ih2
      exact ⟨by rw [List.cons_append]; exact congrArg (e :: ·) ih1, ih2⟩
    | nil =>
      obtain ⟨p₁, chunks₁, evs₁, evs₂, hP, hsplit, hfa2, hnil⟩ :=
        Parse_feedAll T chunks p pf evs h
      cases hevs1 : evs₁ with
      | nil =>
        obtain ⟨hc, hev⟩ := hnil hevs1
        rw [hevs1] at hP
        have hEOF := IsEOF_ok T cur hP
        rw [drainAll_step, hEOF]
        rw [show (List.map handleEvent [] : List XMLElement).isEmpty = true from rfl]
        dsimp only
        rw [hev]
        exact ⟨rfl, rfl⟩
      | cons x xs =>
        rw [hevs1, List.map_cons] at hP
        have hEOF := IsEOF_ok T cur hP
        have hP' := Parse_cons T chunks₁ p₁ (handleEvent x) (List.map handleEvent xs)
        have hRE := ReadElement_ok T cur hP'
        rw [drainAll_step, hEOF]
        rw [show (handleEvent x :: List.map handleEvent xs).isEmpty = false from rfl]
        dsimp only
        rw [hRE]
        dsimp only
        have hlen : (List.map handleEvent xs).length + evs₂.length < fuel := by
          have : evs.length = evs₁.length + evs₂.length := by rw [hsplit]; simp
          rw [hevs1] at this
          simp only [List.length_map, List.length_cons] at this ⊢
          simp only [List.length_nil, Nat.zero_add] at hlt
          omega
        obtain ⟨ih1, ih2⟩ :=
          ihf chunks₁ p₁ pf (List.map handleEvent xs) (some (handleEvent x)) evs₂ hfa2 hlen
        rcases hd : drainAll T fuel ⟨some chunks₁, some p₁, List.map handleEvent xs,
            some (handleEvent x)⟩ with ⟨elems, err, rf⟩
        rw [hd] at ih1 ih2
        constructor
        · rw [hsplit, hevs1]
          simp only [List.nil_append, List.map_append, List.map_cons]
          exact congrArg (handleEvent x :: ·) ih1
        · exact ih2

/-- With an errored tokenizer, a parse step never changes the parser or the
queue: it either does nothing or re-throws. -/
theorem Parse_of_errored {τ : Type} (T : Tokenizer τ) {p : τ} (hp : ErroredAt T p)
    (chunks : List String) (q : List XMLElement) :
    ∃ (chunks'' : List String) (err : Option xml_error),
      XMLReader.Parse T chunks p q = (p, chunks'', q, err) := by
  cases q with
  | cons e es => exact ⟨chunks, none, Parse_cons T chunks p e es⟩
  | nil =>
    cases chunks with
    | nil => exact ⟨[], none, rfl⟩
    | cons c rest =>
      obtain ⟨m, hm⟩ := hp c rest.isEmpty
      exact ⟨rest, some (xml_error.ofMsg m), Parse_step_err T hm⟩

/-- If a parse step throws and the tokenizer is an error sink, the parser
state it leaves behind is errored. -/
theorem Parse_err_errored {τ : Type} (T : Tokenizer τ) (hsink : ErrorSink T) :
    ∀ (chunks : List String) (p p' : τ) (chunks' : List String) (q' : List XMLElement)
      (er : xml_error),
      XMLReader.Parse T chunks p [] = (p', chunks', q', some er) → ErroredAt T p' := by
  intro chunks
  induction chunks with
  | nil =>
    intro p p' chunks' q' er h
    have h4 : (none : Option xml_error) = some er := congrArg (fun t => t.2.2.2) h
    exact absurd h4 (by simp)
  | cons c rest ih =>
    intro p p' chunks' q' er h
    rcases hfe : T.feed p c rest.isEmpty with ⟨p1, evs, err⟩
    cases err with
    | some m =>
      rw [Parse_step_err T hfe] at h
      have hpp : p1 = p' := congrArg (fun t => t.1) h
      exact hpp ▸ hsink p c rest.isEmpty p1 evs m hfe
    | none =>
      cases hq : pushEvents [] evs with
      | nil =>
        rw [Parse_step_cont T hfe hq] at h
        exact ih p1 p' chunks' q' er h
      | cons x xs =>
        rw [Parse_step_stop T hfe hq] at h
        exact absurd (congrArg (fun t => t.2.2.2) h) (by simp)

/-- `ReadElement` when the parse step leaves an empty queue without error:
undefined behaviour (`front()` of an empty list), modelled as `none`. -/
theorem ReadElement_empty {τ : Type} (T : Tokenizer τ) {chunks chunks' : List String}
    {p p' : τ} {q : List XMLElement} (cur : Option XMLElement)
    (h : XMLReader.Parse T chunks p q = (p', chunks', [], none)) :
    XMLReader.ReadElement T ⟨some chunks, some p, q, cur⟩ = none := by
  simp only [XMLReader.ReadElement]
  rw [h]

/-- One public operation on a reader whose tokenizer is errored: the parser
is unchanged and the queue never grows (it is a suffix of what it was). -/
theorem applyOp_errored {τ : Type} (T : Tokenizer τ) {p : τ} (hp : ErroredAt T p)
    (r : XMLReaderState τ) (hr : r.mParser = some p) (op : ReaderOp) :
    (applyOp T r op).mParser = some p ∧ (applyOp T r op).mElements.IsSuffix r.mElements := by
  obtain ⟨strm, prs, q, cur⟩ := r
  simp only at hr
  subst hr
  cases strm with
  | none =>
    cases op with
    | isEOFOp => exact ⟨rfl, List.suffix_refl _⟩
    | readElemOp => exact ⟨rfl, List.suffix_refl _⟩
  | some chunks =>
    obtain ⟨chunks'', err, hP⟩ := Parse_of_errored T hp chunks q
    cases op with
    | isEOFOp =>
      cases err with
      | none =>
        have hEOF := IsEOF_ok T cur hP
        have hst : applyOp T ⟨some chunks, some p, q, cur⟩ ReaderOp.isEOFOp =
            ⟨some chunks'', some p, q, cur⟩ := by simp only [applyOp, hEOF]
        rw [hst]
        exact ⟨rfl, List.suffix_refl _⟩
      | some er =>
        have hEOF := IsEOF_err T cur hP
        have hst : applyOp T ⟨some chunks, some p, q, cur⟩ ReaderOp.isEOFOp =
            ⟨some chunks'', some p, q, cur⟩ := by simp only [applyOp, hEOF]
        rw [hst]
        exact ⟨rfl, List.suffix_refl _⟩
    | readElemOp =>
      cases err with
      | some er =>
        have hRE := ReadElement_err T cur hP
        have hst : applyOp T ⟨some chunks, some p, q, cur⟩ ReaderOp.readElemOp =
            ⟨some chunks'', some p, q, cur⟩ := by simp only [applyOp, hRE]
        rw [hst]
        exact ⟨rfl, List.suffix_refl _⟩
      | none =>
        cases q with
        | nil =>
          have hRE := ReadElement_empty T cur hP
          have hst : applyOp T ⟨some chunks, some p, [], cur⟩ ReaderOp.readElemOp =
              ⟨some chunks, some p, [], cur⟩ := by simp only [applyOp, hRE]
          rw [hst]
          exact ⟨rfl, List.suffix_refl _⟩
        | cons e es =>
          have hRE := ReadElement_ok T cur hP
          have hst : applyOp T ⟨some chunks, some p, e :: es, cur⟩ ReaderOp.readElemOp =
              ⟨some chunks'', some p, es, some e⟩ := by simp only [applyOp, hRE]
          rw [hst]
          exact ⟨rfl, List.suffix_cons e es⟩

/-- Any sequence of public operations on a reader whose tokenizer is
errored: the parser stays errored and no element is ever enqueued. -/
theorem applyOps_errored {τ : Type} (T : Tokenizer τ) {p : τ} (hp : ErroredAt T p) :
    ∀ (ops : List ReaderOp) (r : XMLReaderState τ), r.mParser = some p →
      (applyOps T r ops).mParser = some p ∧
      (applyOps T r ops).mElements.IsSuffix r.mElements := by
  intro ops
  induction ops with
  | nil => intro r hr; exact ⟨hr, List.suffix_refl _⟩
  | cons op ops ih =>
    intro r hr
    have h1 := applyOp_errored T hp r hr op
    have h2 := ih (applyOp T r op) h1.1
    exact ⟨h2.1, h2.2.trans h1.2⟩

/-- An errored stand-in tokenizer instance is a permanent error sink. -/
theorem erroredAt_err (m : String) : ErroredAt miniTokenizer (.err m) :=
  fun _ _ => ⟨m, rfl⟩

/-- The stand-in tokenizer satisfies the error-sink property the spec
ascribes to the external tokenizer (§7): parse errors are permanent. -/
theorem miniTokenizer_errorSink : ErrorSink miniTokenizer := by
  intro p c d p' evs m h
  cases p with
  | err m0 =>
    have h0 : miniTokenizer.feed (TkState.err m0) c d = (TkState.err m0, [], some m0) := rfl
    rw [h0] at h
    have hp' : TkState.err m0 = p' := congrArg (fun t => t.1) h
    rw [← hp']
    exact erroredAt_err m0
  | run pend stack =>
    have hfd : miniTokenizer.feed (TkState.run pend stack) c d =
        (match scan ((pend ++ c.data).length + 1) (pend ++ c.data) stack d with
         | (evs, ScanOut.more pend' stack') => (TkState.run pend' stack', evs, none)
         | (evs, ScanOut.fail m) => (TkState.err m, evs, some m)) := rfl
    rcases hs : scan ((pend ++ c.data).length + 1) (pend ++ c.data) stack d with ⟨evs0, out⟩
    rw [hfd, hs] at h
    cases out with
    | more pend' stack' =>
      dsimp only at h
      exact absurd (congrArg (fun t => t.2.2) h) (by simp)
    | fail m1 =>
      dsimp only at h
      have hp' : TkState.err m1 = p' := congrArg (fun t => t.1) h
      rw [← hp']
      exact erroredAt_err m1

/-- C2: during a feed call the adapter appends exactly one Element per
tokenizer event, in delivery order — a start-tag event yields a StartTag
element with the given name and (keys being distinct, as XML guarantees)
exactly the delivered attribute pairs, an end-tag event an EndTag element
with the name, a character-data event a Text element whose content is
exactly the delivered span; no event is dropped, merged or reordered. -/
theorem C2_adapter_one_per_event (q : List XMLElement) (evts : List XMLEvent)
    (n s : String) (atts : List (String × String)) (hnd : (atts.map Prod.fst).Nodup) :
    pushEvents q evts = q ++ evts.map handleEvent ∧
    (pushEvents q evts).length = q.length + evts.length ∧
    handleEvent (.startElement n atts) = ⟨.kStart, n, atts⟩ ∧
    handleEvent (.endElement n) = ⟨.kEnd, n, []⟩ ∧
    handleEvent (.characterData s) = ⟨.kText, s, []⟩ := by
  refine ⟨pushEvents_eq_append evts q, ?_, ?_, rfl, rfl⟩
  · rw [pushEvents_eq_append]
    simp
  · simp only [handleEvent, XMLAdapter.OnStartElement, attrFold_eq_self atts hnd]

/-- Witness for C2 at a concrete event list and attribute set. -/
theorem C2_adapter_one_per_event_witness :
    handleEvent (.startElement "a" [("x", "1")]) = ⟨.kStart, "a", [("x", "1")]⟩ :=
  (C2_adapter_one_per_event [] [] "a" "t" [("x", "1")] (by decide)).2.2.1

/-- C7 counterexample: the claim says a Text Element carries character
content but no name; the element `OnCharacterData` builds stores the
character content in its `name` field, so the name field is populated. -/
theorem C7_counterexample :
    (XMLAdapter.OnCharacterData "hello").kind = ElementKind.kText ∧
    (XMLAdapter.OnCharacterData "hello").name = "hello" ∧
    (XMLAdapter.OnCharacterData "hello").name ≠ "" := by
  refine ⟨rfl, rfl, ?_⟩
  decide

/-- C7 (amended): every Element the adapter produces has exactly one kind
tag (the record has a single `kind` field); attributes are populated only
for StartTag elements; an EndTag element carries a name only; a Text
element's character content is stored in the `name` field (the legacy
record has no separate text field) and its attributes stay empty. -/
theorem C7_element_fields (n s : String) (atts : List (String × String)) :
    (XMLAdapter.OnStartElement n atts).kind = ElementKind.kStart ∧
    (XMLAdapter.OnStartElement n atts).name = n ∧
    XMLAdapter.OnEndElement n = ⟨.kEnd, n, []⟩ ∧
    XMLAdapter.OnCharacterData s = ⟨.kText, s, []⟩ ∧
    (XMLAdapter.OnEndElement n).attributes = [] ∧
    (XMLAdapter.OnCharacterData s).attributes = [] :=
  ⟨rfl, rfl, rfl, rfl, rfl, rfl⟩

/-- C3: whenever the parse step makes an Element available (the queue is
non-empty after it), `ReadElement` removes and returns the head of the
queue — the least recently enqueued element, since callbacks push at the
back — transfers it to the caller, and overwrites `mpCurrentElement` with
it, releasing the previously returned element, which the state no longer
references. -/
theorem C3_ReadElement_fifo {τ : Type} (T : Tokenizer τ) {p p' : τ}
    {chunks chunks' : List String} {q es : List XMLElement} {e : XMLElement}
    (cur : Option XMLElement)
    (h : XMLReader.Parse T chunks p q = (p', chunks', e :: es, none)) :
    XMLReader.ReadElement T ⟨some chunks, some p, q, cur⟩ =
      some (⟨some chunks', some p', es, some e⟩, .ok e) :=
  ReadElement_ok T cur h

/-- Witness for C3 on the concrete stream consisting of one self-closing
element. -/
theorem C3_ReadElement_fifo_witness :
    XMLReader.ReadElement miniTokenizer ⟨some ["<a/>"], some initTk, [], none⟩ =
      some (⟨some [], some (TkState.run [] []),
             [⟨ElementKind.kEnd, "a", []⟩], some ⟨ElementKind.kStart, "a", []⟩⟩,
            Except.ok ⟨ElementKind.kStart, "a", []⟩) :=
  C3_ReadElement_fifo miniTokenizer none (by decide)

/-- C10: on a reader whose queue is already non-empty, `ReadElement` only
pops — the byte source is not read (its chunks are unchanged), nothing is
fed to the tokenizer (its state is unchanged), the head is returned, and
the remaining elements keep their order, the queue shrinking by one. -/
theorem C10_frame {τ : Type} (T : Tokenizer τ) (p : τ) (chunks : List String)
    (e : XMLElement) (es : List XMLElement) (cur : Option XMLElement) :
    XMLReader.ReadElement T ⟨some chunks, some p, e :: es, cur⟩ =
      some (⟨some chunks, some p, es, some e⟩, .ok e) :=
  ReadElement_ok T cur (Parse_cons T chunks p e es)

/-- C4: feeding the byte stream of the spec's round-trip test through the
reader yields exactly StartTag("a", x="1"), StartTag("b"), EndTag("b"),
Text("hello"), EndTag("a"), with no error, after which `hasMore` returns
false. -/
theorem C4_roundtrip :
    (drainAll miniTokenizer 10 (mkReader initTk ["<a x=\"1\"><b/>hello</a>"])).1 =
      [⟨ElementKind.kStart, "a", [("x", "1")]⟩, ⟨ElementKind.kStart, "b", []⟩,
       ⟨ElementKind.kEnd, "b", []⟩, ⟨ElementKind.kText, "hello", []⟩,
       ⟨ElementKind.kEnd, "a", []⟩] ∧
    (drainAll miniTokenizer 10 (mkReader initTk ["<a x=\"1\"><b/>hello</a>"])).2.1 = none ∧
    (hasMore miniTokenizer
        (drainAll miniTokenizer 10 (mkReader initTk ["<a x=\"1\"><b/>hello</a>"])).2.2).2 =
      Except.ok false := by
  refine ⟨?_, ?_, ?_⟩ <;> decide

/-- C1 counterexample: on the reader state with a failed tokenizer but a
live, non-empty byte source, `hasMore` returns false although no input has
been consumed (the stream still holds the chunk "x") — refuting the
unrestricted biconditional "hasMore() returns false iff all input has been
consumed and the queue is empty". -/
theorem C1_counterexample :
    (hasMore miniTokenizer ⟨some ["x"], none, [], none⟩).2 = Except.ok false ∧
    (hasMore miniTokenizer ⟨some ["x"], none, [], none⟩).1.mpStream = some ["x"] ∧
    (["x"] : List String) ≠ [] ∧
    (hasMore miniTokenizer ⟨some ["x"], none, [], none⟩).1.mElements = [] := by
  refine ⟨rfl, rfl, ?_, rfl⟩
  decide

/-- C1 (amended): on a reader with a live parser and stream, when the parse
step succeeds, `hasMore` (IsEOF negated) returns false iff all input has
been consumed and the queue is empty, and returns true exactly when at
least one Element is queued after the step. -/
theorem C1_hasMore_iff {τ : Type} (T : Tokenizer τ) {p p' : τ}
    {chunks chunks' : List String} {q q' : List XMLElement} (cur : Option XMLElement)
    (h : XMLReader.Parse T chunks p q = (p', chunks', q', none)) :
    ((hasMore T ⟨some chunks, some p, q, cur⟩).2 = Except.ok false ↔
      chunks' = [] ∧ q' = []) ∧
    ((hasMore T ⟨some chunks, some p, q, cur⟩).2 = Except.ok true ↔ q' ≠ []) := by
  have hEOF := IsEOF_ok T cur h
  have hm : (hasMore T ⟨some chunks, some p, q, cur⟩).2 = Except.ok (!q'.isEmpty) := by
    simp only [hasMore, hEOF, Except.map]
  rw [hm]
  constructor
  · constructor
    · intro hb
      have hq' : q' = [] := by
        have := (Except.ok.injEq _ _).mp hb
        cases q' with
        | nil => rfl
        | cons a as => simp at this
      exact ⟨Parse_success_empty T chunks p p' q chunks' (hq' ▸ h), hq'⟩
    · intro hb
      rw [hb.2]
      rfl
  · constructor
    · intro hb hq'
      rw [hq'] at hb
      simp at hb
    · intro hb
      cases q' with
      | nil => exact absurd rfl hb
      | cons a as => rfl

/-- Witness for C1 (amended) on the one-chunk stream containing one
self-closing element: two elements are queued, so `hasMore` is true. -/
theorem C1_hasMore_iff_witness :
    (hasMore miniTokenizer ⟨some ["<a/>"], some initTk, [], none⟩).2 = Except.ok true :=
  (C1_hasMore_iff miniTokenizer none
      (show XMLReader.Parse miniTokenizer ["<a/>"] initTk [] =
        (TkState.run [] [], [], [⟨ElementKind.kStart, "a", []⟩, ⟨ElementKind.kEnd, "a", []⟩],
          none) by decide)).2.mpr (by decide)

/-- C6 counterexample: with a failed tokenizer instance (`mParser = none`)
and a live stream, `hasMore` returns false ("EOF"), not true ("not EOF") as
the claim states; no error is raised. -/
theorem C6_counterexample :
    (hasMore miniTokenizer ⟨some ["<a/>"], none, [], none⟩).2 = Except.ok false ∧
    (hasMore miniTokenizer ⟨some ["<a/>"], none, [], none⟩).2 ≠ Except.ok true := by
  refine ⟨rfl, ?_⟩
  decide

/-- C6 (amended): if the tokenizer failed to initialise or no byte source
was supplied, every `IsEOF` call silently returns true ("EOF"), so
`hasMore` returns false, degrading to "always EOF" without raising an
error and without touching the state. -/
theorem C6_degraded_eof {τ : Type} (T : Tokenizer τ) (r : XMLReaderState τ)
    (h : r.mParser = none ∨ r.mpStream = none) :
    XMLReader.IsEOF T r = (r, Except.ok true) ∧
    (hasMore T r).2 = Except.ok false ∧ (hasMore T r).1 = r := by
  obtain ⟨strm, prs, q, cur⟩ := r
  have hEOF : XMLReader.IsEOF T ⟨strm, prs, q, cur⟩ = (⟨strm, prs, q, cur⟩, Except.ok true) := by
    rcases h with h | h
    · simp only at h
      subst h
      rfl
    · simp only at h
      subst h
      cases prs with
      | none => rfl
      | some p => rfl
  exact ⟨hEOF, by simp only [hasMore, hEOF, Except.map]; rfl, by simp only [hasMore, hEOF]⟩

/-- Witness for C6 (amended) at a concrete degraded reader. -/
theorem C6_degraded_eof_witness :
    XMLReader.IsEOF miniTokenizer ⟨some ["<a/>"], none, [], none⟩ =
      (⟨some ["<a/>"], none, [], none⟩, Except.ok true) :=
  (C6_degraded_eof miniTokenizer ⟨some ["<a/>"], none, [], none⟩ (Or.inl rfl)).1

/-- C5 counterexample: no function can recover the tokenizer's diagnostic
message from the raised `xml_error`, because the constructor discards it —
`xml_error.ofMsg` is constant, so errors raised for different diagnostics
are equal.  This refutes "carries the tokenizer's human-readable diagnostic
message". -/
theorem C5_counterexample :
    ¬ ∃ f : xml_error → String, ∀ msg : String, f (xml_error.ofMsg msg) = msg := by
  rintro ⟨f, hf⟩
  have h1 := hf "A"
  have h2 := hf "B"
  have heq : ("A" : String) = "B" := by rw [← h1, ← h2]
  exact absurd heq (by decide)

/-- C5 (amended): whenever the tokenizer reports a fatal parse error during
a parse step, the reader fails by throwing an `xml_error` constructed from
the tokenizer's diagnostic message; the legacy `xml_error` type however
discards that message (its constructor ignores `what`), so the raised error
value is independent of the diagnostic. -/
theorem C5_malformed_error {τ : Type} (T : Tokenizer τ) {p p' : τ} {c : String}
    {rest : List String} {evs : List XMLEvent} {m : String} (cur : Option XMLElement)
    (h : T.feed p c rest.isEmpty = (p', evs, some m)) :
    XMLReader.Parse T (c :: rest) p [] =
      (p', rest, pushEvents [] evs, some (xml_error.ofMsg m)) ∧
    XMLReader.IsEOF T ⟨some (c :: rest), some p, [], cur⟩ =
      (⟨some rest, some p', pushEvents [] evs, cur⟩, Except.error (xml_error.ofMsg m)) ∧
    ∀ m' : String, xml_error.ofMsg m' = xml_error.ofMsg m := by
  have hP := Parse_step_err T h
  exact ⟨hP, IsEOF_err T cur hP, fun m' => rfl⟩

/-- Witness for C5 (amended) on the spec's malformed input, whose close tag
mismatches: the stand-in tokenizer reports "mismatched tag". -/
theorem C5_malformed_error_witness :
    XMLReader.Parse miniTokenizer ["<a><b></a>"] initTk [] =
      (TkState.err "mismatched tag", [],
       pushEvents [] [XMLEvent.startElement "a" [], XMLEvent.startElement "b" []],
       some (xml_error.ofMsg "mismatched tag")) :=
  (C5_malformed_error miniTokenizer none
      (show miniTokenizer.feed initTk "<a><b></a>" (List.isEmpty []) =
        (TkState.err "mismatched tag",
         [XMLEvent.startElement "a" [], XMLEvent.startElement "b" []],
         some "mismatched tag") by decide)).1

/-- C8: for any two chunkings of the same byte stream, provided the
external tokenizer delivers the same start/end-tag events for both — its
contractual chunking invariance for tag boundaries, only text
fragmentation may vary — the reader produces identical Element sequences
when restricted to start-tag and end-tag elements: the pull loop adds no
chunking sensitivity of its own. -/
theorem C8_chunking_invariance {τ : Type} (T : Tokenizer τ) (p : τ) {p1 p2 : τ}
    (cs1 cs2 : List String) {evs1 evs2 : List XMLEvent} (fuel1 fuel2 : Nat)
    (_hjoin : String.join cs1 = String.join cs2)
    (h1 : feedAll T cs1 p = (p1, evs1, none))
    (h2 : feedAll T cs2 p = (p2, evs2, none))
    (htok : evs1.filter isTagEvent = evs2.filter isTagEvent)
    (hf1 : evs1.length < fuel1) (hf2 : evs2.length < fuel2) :
    (drainAll T fuel1 (mkReader p cs1)).1.filter isTagElement =
      (drainAll T fuel2 (mkReader p cs2)).1.filter isTagElement := by
  have hcomm : (isTagElement ∘ handleEvent) = isTagEvent := by
    funext ev
    cases ev <;> rfl
  have d1 := (drainAll_feedAll T fuel1 cs1 p p1 [] none evs1 h1 (by simpa using hf1)).1
  have d2 := (drainAll_feedAll T fuel2 cs2 p p2 [] none evs2 h2 (by simpa using hf2)).1
  rw [show mkReader p cs1 = (⟨some cs1, some p, [], none⟩ : XMLReaderState τ) from rfl,
      show mkReader p cs2 = (⟨some cs2, some p, [], none⟩ : XMLReaderState τ) from rfl]
  rw [d1, d2]
  simp only [List.nil_append]
  rw [List.filter_map, List.filter_map, hcomm, htok]

/-- Witness for C8: the round-trip stream fed as a single chunk versus
three chunks that split both a tag and the text run; the tag elements
agree although the text fragments differ ("hello" vs "hel"/"lo"). -/
theorem C8_chunking_invariance_witness :
    (drainAll miniTokenizer 10
        (mkReader initTk ["<a x=\"1\"><b/>hello</a>"])).1.filter isTagElement =
      (drainAll miniTokenizer 10
        (mkReader initTk ["<a x=\"1\"><b", "/>hel", "lo</a>"])).1.filter isTagElement :=
  C8_chunking_invariance miniTokenizer initTk
    ["<a x=\"1\"><b/>hello</a>"] ["<a x=\"1\"><b", "/>hel", "lo</a>"] 10 10
    (by decide)
    (show feedAll miniTokenizer ["<a x=\"1\"><b/>hello</a>"] initTk =
      (TkState.run [] [],
       [XMLEvent.startElement "a" [("x", "1")], XMLEvent.startElement "b" [],
        XMLEvent.endElement "b", XMLEvent.characterData "hello",
        XMLEvent.endElement "a"], none) by decide)
    (show feedAll miniTokenizer ["<a x=\"1\"><b", "/>hel", "lo</a>"] initTk =
      (TkState.run [] [],
       [XMLEvent.startElement "a" [("x", "1")], XMLEvent.startElement "b" [],
        XMLEvent.endElement "b", XMLEvent.characterData "hel",
        XMLEvent.characterData "lo", XMLEvent.endElement "a"], none) by decide)
    (by decide) (by decide) (by decide)

/-- C9: once a parse step has failed with the thrown `xml_error`, and the
tokenizer is an error sink (as expat is: it is never reset and cannot
resume), the parser stays in the same errored state under every sequence
of subsequent `IsEOF`/`ReadElement` operations and the element queue never
grows — it remains a suffix of the queue at failure time, so no further
Elements are ever produced. -/
theorem C9_error_permanent {τ : Type} (T : Tokenizer τ) {p p' : τ}
    {chunks chunks' : List String} {q' : List XMLElement} {er : xml_error}
    (hsink : ErrorSink T)
    (hfail : XMLReader.Parse T chunks p [] = (p', chunks', q', some er)) :
    ErroredAt T p' ∧
    ∀ (cur : Option XMLElement) (ops : List ReaderOp),
      (applyOps T ⟨some chunks', some p', q', cur⟩ ops).mParser = some p' ∧
      (applyOps T ⟨some chunks', some p', q', cur⟩ ops).mElements.IsSuffix q' := by
  have herr := Parse_err_errored T hsink chunks p p' chunks' q' er hfail
  exact ⟨herr, fun cur ops =>
    applyOps_errored T herr ops ⟨some chunks', some p', q', cur⟩ rfl⟩

/-- Witness for C9 on the spec's malformed input with a mismatched close
tag: after the failing step, the two pre-error elements may still be
drained but nothing is ever added. -/
theorem C9_error_permanent_witness :
    ErroredAt miniTokenizer (TkState.err "mismatched tag") ∧
    (applyOps miniTokenizer
        ⟨some [], some (TkState.err "mismatched tag"),
         [⟨ElementKind.kStart, "a", []⟩, ⟨ElementKind.kStart, "b", []⟩], none⟩
        [ReaderOp.isEOFOp, ReaderOp.readElemOp, ReaderOp.isEOFOp]).mElements.IsSuffix
      [⟨ElementKind.kStart, "a", []⟩, ⟨ElementKind.kStart, "b", []⟩] := by
  have h := C9_error_permanent miniTokenizer miniTokenizer_errorSink
    (show XMLReader.Parse miniTokenizer ["<a><b></a>"] initTk [] =
      (TkState.err "mismatched tag", [],
       [⟨ElementKind.kStart, "a", []⟩, ⟨ElementKind.kStart, "b", []⟩],
       some (xml_error.ofMsg "mismatched tag")) by decide)
  exact ⟨h.1, (h.2 none [ReaderOp.isEOFOp, ReaderOp.readElemOp, ReaderOp.isEOFOp]).2⟩
